import Mathlib

/-!
Verification of `src/unzipped_epub_downloader/downloader.py`.

The program reconstructs an EPUB archive from an "unzipped" EPUB published on a
web server: it fetches `mimetype`, `META-INF/container.xml`, five optional
`META-INF` metadata files, every rootfile named by the container, and every
manifest item of every rootfile, and writes them into a ZIP file.

Modelling choices, stated once here and in the doc comment of each definition:

* Byte strings (Python `bytes`) are modelled as `String`.
* The HTTP collaborator (`requests.Session.get` plus `raise_for_status`) is an
  abstract server `Session : String → FetchResult`: each URL either answers
  with a body, answers with a non-success HTTP status (so `raise_for_status`
  raises `requests.exceptions.HTTPError`), or fails at the transport level
  (DNS, connection reset, timeout — `requests` exceptions that are *not*
  `HTTPError`).
* `urllib.parse.urljoin` is an external library function; it is passed to the
  model as an abstract collaborator `UrlJoin : String → String → String` and
  applied exactly where the source applies `urljoin`.
* `defusedxml.ElementTree.fromstring` is modelled on an abstract
  classification of its input bytes (`XmlInput`): ill-formed XML (the parser
  raises `ParseError`), XML using entity declarations / external entity
  references or recursive entity expansion (defusedxml raises
  `EntitiesForbidden` / `ExternalReferenceForbidden` by its documented
  contract), or well-formed XML with a given element tree.
* `zipfile.ZipFile(path, "w", ZIP_DEFLATED)` opened via `with` writes directly
  to `path`; `writestr(name, data)` appends an entry compressed with the
  archive default `ZIP_DEFLATED` unless `compress_type=ZIP_STORED` is given,
  and stamps the entry's `date_time` from the current clock.  The clock is
  modelled as an explicit `now : Nat` argument.  On an exception inside the
  `with` block the `ZipFile` is closed, leaving at the output path a ZIP
  holding exactly the entries written so far.
-/

namespace UnzippedEpub

/-- Compression mode of one ZIP entry: `zipfile.ZIP_STORED` or
`zipfile.ZIP_DEFLATED`. -/
inductive Compress where
  | stored
  | deflated
deriving DecidableEq, Repr

/-- One archive member as produced by `ZipFile.writestr`: entry name, raw
bytes, compression mode, and the `date_time` that `writestr` stamps from the
current clock when building the `ZipInfo`. -/
structure ZipEntry where
  path : String
  data : String
  compress : Compress
  dateTime : Nat
deriving DecidableEq, Repr

/-- Model of an `xml.etree.ElementTree` element: Clark-notation tag
(`\x7bnamespace-uri\x7dlocal`), attribute dictionary, text, children.  The
program only uses `findall` on two-segment paths and `attrib` lookups. -/
inductive Element where
  | mk (tag : String) (attrib : List (String × String)) (text : Option String)
      (children : List Element)

/-- Tag of an element. -/
def Element.tag : Element → String
  | .mk t _ _ _ => t

/-- Attribute dictionary of an element. -/
def Element.attrib : Element → List (String × String)
  | .mk _ a _ _ => a

/-- Text of an element. -/
def Element.text : Element → Option String
  | .mk _ _ tx _ => tx

/-- Children of an element. -/
def Element.children : Element → List Element
  | .mk _ _ _ cs => cs

/-- The direct children of `e` whose (namespace-resolved) tag is `t`. -/
def Element.childrenWith (e : Element) (t : String) : List Element :=
  e.children.filter (fun c => c.tag = t)

/-- `e.findall("p1/p2", namespaces)` after the namespace prefixes have been
resolved into Clark-notation tags `t1`, `t2`: all `t2`-children of all
`t1`-children of `e`, in document order. -/
def Element.findall2 (e : Element) (t1 t2 : String) : List Element :=
  ((e.childrenWith t1).map (fun c => c.childrenWith t2)).flatten

/-- `"c:rootfiles"` resolved against the container namespace
`urn:oasis:names:tc:opendocument:xmlns:container`. -/
def tagRootfiles : String :=
  "\x7burn:oasis:names:tc:opendocument:xmlns:container\x7drootfiles"

/-- `"c:rootfile"` resolved against the container namespace. -/
def tagRootfile : String :=
  "\x7burn:oasis:names:tc:opendocument:xmlns:container\x7drootfile"

/-- `"opf:manifest"` resolved against `http://www.idpf.org/2007/opf`. -/
def tagManifest : String :=
  "\x7bhttp://www.idpf.org/2007/opf\x7dmanifest"

/-- `"opf:item"` resolved against `http://www.idpf.org/2007/opf`. -/
def tagItem : String :=
  "\x7bhttp://www.idpf.org/2007/opf\x7ditem"

/-- `"opf:metadata"` resolved against `http://www.idpf.org/2007/opf`. -/
def tagMetadata : String :=
  "\x7bhttp://www.idpf.org/2007/opf\x7dmetadata"

/-- `"dc:title"` resolved against `http://purl.org/dc/elements/1.1/`. -/
def tagTitle : String :=
  "\x7bhttp://purl.org/dc/elements/1.1/\x7dtitle"

/-- Errors the run can abort with.  `httpStatus` is
`requests.exceptions.HTTPError` raised by `raise_for_status`; `transport` is
any other `requests` failure (DNS, connection reset, timeout); `xmlParse` is
`xml.etree.ElementTree.ParseError`; `entitiesForbidden` is defusedxml's
`EntitiesForbidden` / `ExternalReferenceForbidden`; `keyError` is Python's
`KeyError` from a missing required attribute. -/
inductive DlError where
  | httpStatus (url : String)
  | transport (url : String)
  | xmlParse
  | entitiesForbidden
  | keyError (key : String)
deriving DecidableEq, Repr

/-- A fetched byte string, classified by how
`defusedxml.ElementTree.fromstring` would treat it: not well-formed XML,
XML whose prolog declares entities or refers to external entities (the two
entity-expansion attack shapes), or well-formed XML parsing to `doc`.  `raw`
is always the raw byte string served. -/
inductive XmlInput where
  | malformed (raw : String)
  | entities (raw : String)
  | wellFormed (raw : String) (doc : Element)

/-- The raw bytes of a fetched body. -/
def XmlInput.raw : XmlInput → String
  | .malformed r => r
  | .entities r => r
  | .wellFormed r _ => r

/-- `parse_xml` (line 20): `defusedxml.ElementTree.fromstring`.  Per the
defusedxml contract, ill-formed XML raises `ParseError`, and any input
declaring entities or resolving external entities is rejected with
`EntitiesForbidden` / `ExternalReferenceForbidden` instead of being parsed or
expanded. -/
def parse_xml : XmlInput → Except DlError Element
  | .malformed _ => .error .xmlParse
  | .entities _ => .error .entitiesForbidden
  | .wellFormed _ doc => .ok doc

/-- The server's answer to one GET: a body, a non-success HTTP status, or a
transport-level failure. -/
inductive FetchResult where
  | ok (body : XmlInput)
  | httpError
  | transportError

/-- Whether a fetch fails at the transport level (an exception that is *not*
`requests.exceptions.HTTPError`). -/
def FetchResult.isTransport : FetchResult → Bool
  | .transportError => true
  | _ => false

/-- A fixed server as seen through `requests.Session.get`. -/
def Session := String → FetchResult

/-- The `urllib.parse.urljoin` collaborator. -/
def UrlJoin := String → String → String

/-- `download_file` (lines 13–16): GET the URL; `raise_for_status` turns a
non-success status into `requests.exceptions.HTTPError`; transport failures
propagate as their own exceptions. -/
def download_file (session : Session) (url : String) : Except DlError XmlInput :=
  match session url with
  | .ok body => .ok body
  | .httpError => .error (.httpStatus url)
  | .transportError => .error (.transport url)

/-- `optional_meta_files` (lines 32–38). -/
def optional_meta_files : List String :=
  ["META-INF/encryption.xml", "META-INF/manifest.xml", "META-INF/metadata.xml",
   "META-INF/rights.xml", "META-INF/signatures.xml"]

/-- `[r.attrib["full-path"] for r in rootfile_elements]` (line 47): taking the
required `full-path` attribute of each rootfile element in order; a missing
attribute raises `KeyError`. -/
def rootfilePaths : List Element → Except DlError (List String)
  | [] => .ok []
  | r :: rest =>
    match r.attrib.lookup "full-path" with
    | none => .error (.keyError "full-path")
    | some p =>
      match rootfilePaths rest with
      | .error e => .error e
      | .ok ps => .ok (p :: ps)

/-- Lines 40–47, everything executed before the output ZIP is opened: fetch
`mimetype`, fetch and parse `META-INF/container.xml`, and read the rootfile
paths.  Returns the mimetype body, the container body, and the rootfile
paths. -/
def preparePhase (j : UrlJoin) (s : Session) (base_url : String) :
    Except DlError (XmlInput × XmlInput × List String) :=
  match download_file s (j base_url "mimetype") with
  | .error e => .error e
  | .ok mimetype =>
    match download_file s (j base_url "META-INF/container.xml") with
    | .error e => .error e
    | .ok container_xml_content =>
      match parse_xml container_xml_content with
      | .error e => .error e
      | .ok container_xml =>
        match rootfilePaths (container_xml.findall2 tagRootfiles tagRootfile) with
        | .error e => .error e
        | .ok rootfile_paths => .ok (mimetype, container_xml_content, rootfile_paths)

/-- The optional-metadata loop (lines 54–59), threading the list of entries
already written to the open ZIP.  A non-success HTTP status is caught
(`except requests.exceptions.HTTPError: pass`) and the file skipped; a
transport failure is not caught, and the exception escapes carrying the ZIP
entries written so far (the `with` block closes the partial archive). -/
def runOptional (j : UrlJoin) (s : Session) (base_url : String) (now : Nat)
    (acc : List ZipEntry) :
    List String → Except (DlError × List ZipEntry) (List ZipEntry)
  | [] => .ok acc
  | meta_file :: rest =>
    match s (j base_url meta_file) with
    | .ok body =>
      runOptional j s base_url now
        (acc ++ [ZipEntry.mk meta_file body.raw Compress.deflated now]) rest
    | .httpError => runOptional j s base_url now acc rest
    | .transportError => .error (.transport (j base_url meta_file), acc)

/-- The manifest-item loop (lines 69–74) for one rootfile: for each item, read
the required `href` attribute (`KeyError` if absent), fetch
`urljoin(rootfile_url, href)`, and write the bytes at archive path
`urljoin(rootfile_path, href)`.  Raised exceptions carry the entries already
written. -/
def runItems (j : UrlJoin) (s : Session) (rootfile_url rootfile_path : String)
    (now : Nat) (acc : List ZipEntry) :
    List Element → Except (DlError × List ZipEntry) (List ZipEntry)
  | [] => .ok acc
  | item :: rest =>
    match item.attrib.lookup "href" with
    | none => .error (.keyError "href", acc)
    | some href =>
      match download_file s (j rootfile_url href) with
      | .error e => .error (e, acc)
      | .ok file_content =>
        runItems j s rootfile_url rootfile_path now
          (acc ++ [ZipEntry.mk (j rootfile_path href) file_content.raw Compress.deflated now])
          rest

/-- The rootfile loop (lines 61–74): for each rootfile path, fetch
`urljoin(base_url, rootfile_path)`, parse it, write its raw bytes at the
rootfile path, then run the manifest-item loop on
`opf:manifest/opf:item`. -/
def runRootfiles (j : UrlJoin) (s : Session) (base_url : String) (now : Nat)
    (acc : List ZipEntry) :
    List String → Except (DlError × List ZipEntry) (List ZipEntry)
  | [] => .ok acc
  | rootfile_path :: rest =>
    match download_file s (j base_url rootfile_path) with
    | .error e => .error (e, acc)
    | .ok rootfile_content =>
      match parse_xml rootfile_content with
      | .error e => .error (e, acc)
      | .ok rootfile_xml =>
        match runItems j s (j base_url rootfile_path) rootfile_path now
            (acc ++ [ZipEntry.mk rootfile_path rootfile_content.raw Compress.deflated now])
            (rootfile_xml.findall2 tagManifest tagItem) with
        | .error p => .error p
        | .ok acc' => runRootfiles j s base_url now acc' rest

/-- The body of the `with zipfile.ZipFile(...)` block after the two fixed
writes (lines 54–74): optional metadata files, then the rootfile loop. -/
def zipPhase (j : UrlJoin) (s : Session) (base_url : String) (now : Nat)
    (acc : List ZipEntry) (rootfile_paths : List String) :
    Except (DlError × List ZipEntry) (List ZipEntry) :=
  match runOptional j s base_url now acc optional_meta_files with
  | .error p => .error p
  | .ok acc' => runRootfiles j s base_url now acc' rootfile_paths

/-- Outcome of one run of `download_epub`: the exception it aborted with (if
any) and the state of the output path — `none` when the ZIP file was never
created (failure before line 49), otherwise the file name and the entries the
closed archive holds. -/
structure RunResult where
  error : Option DlError
  file : Option (String × List ZipEntry)
deriving DecidableEq, Repr

/-- `download_epub` (lines 25–74).  The pre-archive phase runs first; any
failure there aborts with no file created.  Then
`zipfile.ZipFile(epub_filename, "w", ZIP_DEFLATED)` is opened at the output
path and `mimetype` is written first with `compress_type=ZIP_STORED`,
followed by `META-INF/container.xml` and the two loops, each entry deflated
by the archive default.  An exception inside the `with` block closes the
partial archive in place. -/
def download_epub (j : UrlJoin) (s : Session) (base_url epub_filename : String)
    (now : Nat) : RunResult :=
  match preparePhase j s base_url with
  | .error e => ⟨some e, none⟩
  | .ok (mimetype, container_xml_content, rootfile_paths) =>
    match zipPhase j s base_url now
        [ZipEntry.mk "mimetype" mimetype.raw Compress.stored now,
         ZipEntry.mk "META-INF/container.xml" container_xml_content.raw Compress.deflated now]
        rootfile_paths with
    | .error (e, es) => ⟨some e, some (epub_filename, es)⟩
    | .ok es => ⟨none, some (epub_filename, es)⟩

/-! ## CLI option parsing (lines 78–123)

Python `str` values are modelled as `List Char`.  `value.split(sep, 1)`
unpacked into two names succeeds exactly when `sep` occurs, splitting at its
first occurrence; otherwise the `ValueError` is turned into
`click.BadParameter`. -/

/-- Split a string at the first occurrence of `sep`: `value.split(sep, 1)`
unpacked into a pair, `none` when `sep` does not occur. -/
def breakOnFirst (sep : Char) : List Char → Option (List Char × List Char)
  | [] => none
  | c :: rest =>
    if c = sep then some ([], rest)
    else
      match breakOnFirst sep rest with
      | none => none
      | some (a, b) => some (c :: a, b)

/-- Python `str.strip()`: drop whitespace from both ends. -/
def trimChars (s : List Char) : List Char :=
  ((s.dropWhile Char.isWhitespace).reverse.dropWhile Char.isWhitespace).reverse

/-- Python `dict` assignment `d[k] = v`: update in place if the key exists,
else append. -/
def dictInsert (k v : List Char) :
    List (List Char × List Char) → List (List Char × List Char)
  | [] => [(k, v)]
  | (k0, v0) :: rest =>
    if k0 = k then (k, v) :: rest else (k0, v0) :: dictInsert k v rest

/-- The `click.BadParameter` message of `parse_auth`. -/
def authErrorMessage : String :=
  "Authentication must be in \"username:password\" format."

/-- The `click.BadParameter` message of `parse_headers`. -/
def headersErrorMessage : String := "Headers must be in \"key: value\" format."

/-- The `click.BadParameter` message of `parse_cookies`. -/
def cookiesErrorMessage : String := "Cookies must be in \"key=value\" format."

/-- The `click.BadParameter` message of `parse_params`. -/
def paramsErrorMessage : String := "Parameters must be in \"key=value\" format."

/-- `parse_auth` (lines 78–87): `None` passes through; otherwise split on the
first `:` into `(username, password)`, raising `click.BadParameter` when no
`:` occurs. -/
def parse_auth (value : Option (List Char)) :
    Except String (Option (List Char × List Char)) :=
  match value with
  | none => .ok none
  | some v =>
    match breakOnFirst ':' v with
    | some (username, password) => .ok (some (username, password))
    | none => .error authErrorMessage

/-- The loop body of `parse_headers` (lines 91–99) with its accumulated
dictionary. -/
def parseHeadersFrom (acc : List (List Char × List Char)) :
    List (List Char) → Except String (List (List Char × List Char))
  | [] => .ok acc
  | h :: rest =>
    match breakOnFirst ':' h with
    | some (key, val) => parseHeadersFrom (dictInsert (trimChars key) (trimChars val) acc) rest
    | none => .error headersErrorMessage

/-- `parse_headers` (lines 91–99): each repeated value split on the first `:`,
both sides stripped, accumulated into a dict. -/
def parse_headers (value : List (List Char)) :
    Except String (List (List Char × List Char)) :=
  parseHeadersFrom [] value

/-- The loop body of `parse_cookies` (lines 103–111). -/
def parseCookiesFrom (acc : List (List Char × List Char)) :
    List (List Char) → Except String (List (List Char × List Char))
  | [] => .ok acc
  | ck :: rest =>
    match breakOnFirst '=' ck with
    | some (key, val) => parseCookiesFrom (dictInsert (trimChars key) (trimChars val) acc) rest
    | none => .error cookiesErrorMessage

/-- `parse_cookies` (lines 103–111): each repeated value split on the first
`=`, both sides stripped. -/
def parse_cookies (value : List (List Char)) :
    Except String (List (List Char × List Char)) :=
  parseCookiesFrom [] value

/-- The loop body of `parse_params` (lines 115–123). -/
def parseParamsFrom (acc : List (List Char × List Char)) :
    List (List Char) → Except String (List (List Char × List Char))
  | [] => .ok acc
  | pv :: rest =>
    match breakOnFirst '=' pv with
    | some (key, val) => parseParamsFrom (dictInsert (trimChars key) (trimChars val) acc) rest
    | none => .error paramsErrorMessage

/-- `parse_params` (lines 115–123): each repeated value split on the first
`=`, both sides stripped. -/
def parse_params (value : List (List Char)) :
    Except String (List (List Char × List Char)) :=
  parseParamsFrom [] value

/-- `main` (lines 126–204): click validates every option value through its
callback before the command body runs, so every malformed option aborts with
`click.BadParameter` before the session issues any request; the parsed values
only configure the `requests` session, which the model keeps abstract as the
ambient `Session`.  On valid options the body calls `download_epub`. -/
def main (j : UrlJoin) (session : Session) (base_url output_file : String)
    (auth : Option (List Char)) (cookie header param : List (List Char))
    (now : Nat) : Except String RunResult :=
  match parse_auth auth with
  | .error e => .error e
  | .ok _ =>
    match parse_cookies cookie with
    | .error e => .error e
    | .ok _ =>
      match parse_headers header with
      | .error e => .error e
      | .ok _ =>
        match parse_params param with
        | .error e => .error e
        | .ok _ => .ok (download_epub j session base_url output_file now)

/-! ## Derived specification functions

These restate pieces of the run as standalone functions, used to phrase the
theorems below; each is defined from the model above. -/

/-- The entries present in the output ZIP after the `with` block, whether it
ended normally or by an exception. -/
def resultEntries : Except (DlError × List ZipEntry) (List ZipEntry) → List ZipEntry
  | .ok es => es
  | .error (_, es) => es

/-- The entries the optional-metadata loop contributes: one deflated entry per
optional file whose fetch succeeded, in list order, HTTP failures skipped. -/
def optSpec (j : UrlJoin) (s : Session) (base_url : String) (now : Nat) :
    List String → List ZipEntry
  | [] => []
  | meta_file :: rest =>
    match s (j base_url meta_file) with
    | .ok body => ZipEntry.mk meta_file body.raw Compress.deflated now :: optSpec j s base_url now rest
    | _ => optSpec j s base_url now rest

/-- The entry one manifest item contributes when its processing succeeds:
`href` read from the item, bytes fetched at `urljoin(rootfile_url, href)`,
entry named `urljoin(rootfile_path, href)`; `none` when the item has no
`href` or its fetch fails. -/
def itemFetch (j : UrlJoin) (s : Session) (rootfile_url rootfile_path : String)
    (now : Nat) (item : Element) : Option ZipEntry :=
  match item.attrib.lookup "href" with
  | none => none
  | some href =>
    match s (j rootfile_url href) with
    | .ok body => some (ZipEntry.mk (j rootfile_path href) body.raw Compress.deflated now)
    | _ => none

/-- The entries a whole manifest contributes, one per item in document order;
`none` as soon as any item fails. -/
def itemsSpec (j : UrlJoin) (s : Session) (rootfile_url rootfile_path : String)
    (now : Nat) : List Element → Option (List ZipEntry)
  | [] => some []
  | item :: rest =>
    match itemFetch j s rootfile_url rootfile_path now item with
    | none => none
    | some e =>
      match itemsSpec j s rootfile_url rootfile_path now rest with
      | none => none
      | some l => some (e :: l)

/-- Whether the phase before the output file is opened (lines 40–47) succeeds:
the `mimetype` and container fetches, the container parse, and every
rootfile's `full-path` attribute. -/
def preOpenOk (j : UrlJoin) (s : Session) (base_url : String) : Bool :=
  match preparePhase j s base_url with
  | .ok _ => true
  | .error _ => false

/-- A ZIP entry without its clock-dependent `date_time` stamp. -/
def ZipEntry.content (e : ZipEntry) : String × String × Compress :=
  (e.path, e.data, e.compress)

/-- A run outcome with every entry's `date_time` stamp erased. -/
def RunResult.content (r : RunResult) :
    Option DlError × Option (String × List (String × String × Compress)) :=
  (r.error, r.file.map (fun p => (p.1, p.2.map ZipEntry.content)))

/-- A `with`-block outcome with every entry's `date_time` stamp erased. -/
def phaseContent :
    Except (DlError × List ZipEntry) (List ZipEntry) →
      Except (DlError × List (String × String × Compress)) (List (String × String × Compress))
  | .ok es => .ok (es.map ZipEntry.content)
  | .error (e, es) => .error (e, es.map ZipEntry.content)

/-! ## Concrete fixtures

A finite scenario mirroring the spec's end-to-end example: base URL
`http://x/book/`, one rootfile `OEBPS/content.opf` with `dc:title` `Demo` and
one manifest item `href="ch1.html"`.  `cJoin` tabulates
`urllib.parse.urljoin` on the pairs the scenarios touch. -/

/-- The example base URL. -/
def cBase : String := "http://x/book/"

/-- `urllib.parse.urljoin` evaluated on the argument pairs occurring in the
concrete scenarios: resolving `ch1.html` against `.../OEBPS/content.opf`
replaces the last path segment; resolving any plain relative path against the
slash-terminated base appends it. -/
def cJoin : UrlJoin := fun b r =>
  if b = "http://x/book/OEBPS/content.opf" && r = "ch1.html" then
    "http://x/book/OEBPS/ch1.html"
  else if b = "OEBPS/content.opf" && r = "ch1.html" then "OEBPS/ch1.html"
  else b ++ r

/-- The example container document: one rootfile at `OEBPS/content.opf`. -/
def cContainerDoc : Element :=
  .mk "container" [] none
    [.mk tagRootfiles [] none
      [.mk tagRootfile
        [("full-path", "OEBPS/content.opf"),
         ("media-type", "application/oebps-package+xml")] none []]]

/-- A container document whose `rootfiles` element has zero `rootfile`
children. -/
def cEmptyContainerDoc : Element :=
  .mk "container" [] none [.mk tagRootfiles [] none []]

/-- The example OPF document: `dc:title` `Demo` and one manifest item with
`href="ch1.html"`. -/
def cOpfDoc : Element :=
  .mk "package" [] none
    [.mk tagMetadata [] none [.mk tagTitle [] (some "Demo") []],
     .mk tagManifest [] none
       [.mk tagItem
         [("id", "ch1"), ("href", "ch1.html"),
          ("media-type", "application/xhtml+xml")] none []]]

/-- An OPF document with a manifest but no `dc:title` anywhere. -/
def cOpfNoTitleDoc : Element :=
  .mk "package" [] none
    [.mk tagManifest [] none
      [.mk tagItem [("id", "ch1"), ("href", "ch1.html")] none []]]

/-- Server for the fully successful example run; the five optional metadata
files answer 404. -/
def sessFull : Session := fun url =>
  if url = "http://x/book/mimetype" then .ok (.malformed "application/epub+zip")
  else if url = "http://x/book/META-INF/container.xml" then
    .ok (.wellFormed "containerxml" cContainerDoc)
  else if url = "http://x/book/OEBPS/content.opf" then .ok (.wellFormed "opfxml" cOpfDoc)
  else if url = "http://x/book/OEBPS/ch1.html" then .ok (.malformed "chapter one")
  else .httpError

/-- Same scenario but the OPF has no `dc:title`. -/
def sessNoTitle : Session := fun url =>
  if url = "http://x/book/mimetype" then .ok (.malformed "application/epub+zip")
  else if url = "http://x/book/META-INF/container.xml" then
    .ok (.wellFormed "containerxml" cContainerDoc)
  else if url = "http://x/book/OEBPS/content.opf" then
    .ok (.wellFormed "opfxml" cOpfNoTitleDoc)
  else if url = "http://x/book/OEBPS/ch1.html" then .ok (.malformed "chapter one")
  else .httpError

/-- Server whose container names zero rootfiles. -/
def sessNoRoot : Session := fun url =>
  if url = "http://x/book/mimetype" then .ok (.malformed "application/epub+zip")
  else if url = "http://x/book/META-INF/container.xml" then
    .ok (.wellFormed "containerxml" cEmptyContainerDoc)
  else .httpError

/-- Server where the rootfile itself answers 404 after `mimetype` and the
container succeeded. -/
def sessRootErr : Session := fun url =>
  if url = "http://x/book/mimetype" then .ok (.malformed "application/epub+zip")
  else if url = "http://x/book/META-INF/container.xml" then
    .ok (.wellFormed "containerxml" cContainerDoc)
  else .httpError

/-- Server where every request fails with a non-success HTTP status. -/
def sessDown : Session := fun _ => .httpError

/-- Server with zero rootfiles where `META-INF/encryption.xml` exists and the
other optional files answer 404. -/
def sessOpt : Session := fun url =>
  if url = "http://x/book/mimetype" then .ok (.malformed "application/epub+zip")
  else if url = "http://x/book/META-INF/container.xml" then
    .ok (.wellFormed "containerxml" cEmptyContainerDoc)
  else if url = "http://x/book/META-INF/encryption.xml" then .ok (.malformed "enc")
  else .httpError

/-- Server where `META-INF/manifest.xml` fails at the transport level while
`META-INF/encryption.xml` answers 404. -/
def sessTransport : Session := fun url =>
  if url = "http://x/book/mimetype" then .ok (.malformed "application/epub+zip")
  else if url = "http://x/book/META-INF/container.xml" then
    .ok (.wellFormed "containerxml" cEmptyContainerDoc)
  else if url = "http://x/book/META-INF/manifest.xml" then .transportError
  else .httpError

/-- The entry list of the successful example run at clock value 0. -/
def esFull : List ZipEntry :=
  [ZipEntry.mk "mimetype" "application/epub+zip" Compress.stored 0,
   ZipEntry.mk "META-INF/container.xml" "containerxml" Compress.deflated 0,
   ZipEntry.mk "OEBPS/content.opf" "opfxml" Compress.deflated 0,
   ZipEntry.mk "OEBPS/ch1.html" "chapter one" Compress.deflated 0]

/-! ## Structural lemmas about the archive-writing loops -/

/-- `download_file` succeeds exactly when the server answers the URL. -/
theorem download_file_ok (s : Session) (u : String) (body : XmlInput) :
    download_file s u = .ok body ↔ s u = .ok body := by
  unfold download_file
  cases s u <;> simp

/-- `parse_xml` succeeds exactly on well-formed entity-free input. -/
theorem parse_xml_ok (x : XmlInput) (doc : Element) :
    parse_xml x = .ok doc ↔ ∃ raw, x = .wellFormed raw doc := by
  cases x <;> simp [parse_xml]

/-- The optional-metadata loop only appends entries, all deflated, whether it
returns or raises. -/
theorem runOptional_extends (j : UrlJoin) (s : Session) (b : String) (n : Nat)
    (l : List String) :
    ∀ acc : List ZipEntry, ∃ ex : List ZipEntry,
      resultEntries (runOptional j s b n acc l) = acc ++ ex ∧
      ∀ e ∈ ex, e.compress = Compress.deflated := by
  induction l with
  | nil => exact fun acc => ⟨[], by simp [runOptional, resultEntries]⟩
  | cons mf rest ih =>
    intro acc
    cases hs : s (j b mf) with
    | ok body =>
      obtain ⟨ex, hex, hall⟩ := ih (acc ++ [ZipEntry.mk mf body.raw Compress.deflated n])
      refine ⟨ZipEntry.mk mf body.raw Compress.deflated n :: ex, ?_, ?_⟩
      · simp only [runOptional, hs]
        rw [hex]
        simp
      · intro e he
        rcases List.mem_cons.mp he with h | h
        · subst h; rfl
        · exact hall e h
    | httpError =>
      obtain ⟨ex, hex, hall⟩ := ih acc
      refine ⟨ex, ?_, hall⟩
      simp only [runOptional, hs]
      exact hex
    | transportError =>
      exact ⟨[], by simp [runOptional, hs, resultEntries], by simp⟩

/-- The manifest-item loop only appends entries, all deflated, whether it
returns or raises. -/
theorem runItems_extends (j : UrlJoin) (s : Session) (ru rp : String) (n : Nat)
    (items : List Element) :
    ∀ acc : List ZipEntry, ∃ ex : List ZipEntry,
      resultEntries (runItems j s ru rp n acc items) = acc ++ ex ∧
      ∀ e ∈ ex, e.compress = Compress.deflated := by
  induction items with
  | nil => exact fun acc => ⟨[], by simp [runItems, resultEntries]⟩
  | cons item rest ih =>
    intro acc
    cases hh : item.attrib.lookup "href" with
    | none => exact ⟨[], by simp [runItems, hh, resultEntries], by simp⟩
    | some href =>
      cases hs : s (j ru href) with
      | ok body =>
        obtain ⟨ex, hex, hall⟩ :=
          ih (acc ++ [ZipEntry.mk (j rp href) body.raw Compress.deflated n])
        refine ⟨ZipEntry.mk (j rp href) body.raw Compress.deflated n :: ex, ?_, ?_⟩
        · simp only [runItems, hh, download_file, hs]
          rw [hex]
          simp
        · intro e he
          rcases List.mem_cons.mp he with h | h
          · subst h; rfl
          · exact hall e h
      | httpError =>
        exact ⟨[], by simp [runItems, hh, download_file, hs, resultEntries], by simp⟩
      | transportError =>
        exact ⟨[], by simp [runItems, hh, download_file, hs, resultEntries], by simp⟩

/-- The rootfile loop only appends entries, all deflated, whether it returns
or raises. -/
theorem runRootfiles_extends (j : UrlJoin) (s : Session) (b : String) (n : Nat)
    (rps : List String) :
    ∀ acc : List ZipEntry, ∃ ex : List ZipEntry,
      resultEntries (runRootfiles j s b n acc rps) = acc ++ ex ∧
      ∀ e ∈ ex, e.compress = Compress.deflated := by
  induction rps with
  | nil => exact fun acc => ⟨[], by simp [runRootfiles, resultEntries]⟩
  | cons r0 rest ih =>
    intro acc
    cases hs : s (j b r0) with
    | ok body =>
      cases body with
      | malformed raw =>
        exact ⟨[], by simp [runRootfiles, download_file, hs, parse_xml, resultEntries], by simp⟩
      | entities raw =>
        exact ⟨[], by simp [runRootfiles, download_file, hs, parse_xml, resultEntries], by simp⟩
      | wellFormed raw doc =>
        obtain ⟨ex1, hex1, hall1⟩ :=
          runItems_extends j s (j b r0) r0 n (doc.findall2 tagManifest tagItem)
            (acc ++ [ZipEntry.mk r0 raw Compress.deflated n])
        cases hri : runItems j s (j b r0) r0 n
            (acc ++ [ZipEntry.mk r0 raw Compress.deflated n])
            (doc.findall2 tagManifest tagItem) with
        | error p =>
          obtain ⟨e0, pes⟩ := p
          rw [hri] at hex1
          simp only [resultEntries] at hex1
          refine ⟨ZipEntry.mk r0 raw Compress.deflated n :: ex1, ?_, ?_⟩
          · simp only [runRootfiles, download_file, hs, parse_xml, XmlInput.raw, hri,
              resultEntries]
            rw [hex1]
            simp
          · intro e he
            rcases List.mem_cons.mp he with h | h
            · subst h; rfl
            · exact hall1 e h
        | ok acc' =>
          rw [hri] at hex1
          simp only [resultEntries] at hex1
          obtain ⟨ex2, hex2, hall2⟩ := ih acc'
          refine ⟨ZipEntry.mk r0 raw Compress.deflated n :: (ex1 ++ ex2), ?_, ?_⟩
          · simp only [runRootfiles, download_file, hs, parse_xml, XmlInput.raw, hri]
            rw [hex2, hex1]
            simp
          · intro e he
            rcases List.mem_cons.mp he with h | h
            · subst h; rfl
            · rcases List.mem_append.mp h with h' | h'
              · exact hall1 e h'
              · exact hall2 e h'
    | httpError =>
      exact ⟨[], by simp [runRootfiles, download_file, hs, resultEntries], by simp⟩
    | transportError =>
      exact ⟨[], by simp [runRootfiles, download_file, hs, resultEntries], by simp⟩

/-- The whole `with` block only appends entries to the two fixed ones, all of
them deflated. -/
theorem zipPhase_extends (j : UrlJoin) (s : Session) (b : String) (n : Nat)
    (acc : List ZipEntry) (rps : List String) :
    ∃ ex : List ZipEntry,
      resultEntries (zipPhase j s b n acc rps) = acc ++ ex ∧
      ∀ e ∈ ex, e.compress = Compress.deflated := by
  unfold zipPhase
  cases ho : runOptional j s b n acc optional_meta_files with
  | error p =>
    obtain ⟨ex, hex, hall⟩ := runOptional_extends j s b n optional_meta_files acc
    rw [ho] at hex
    exact ⟨ex, hex, hall⟩
  | ok acc' =>
    obtain ⟨ex1, hex1, hall1⟩ := runOptional_extends j s b n optional_meta_files acc
    rw [ho] at hex1
    simp only [resultEntries] at hex1
    obtain ⟨ex2, hex2, hall2⟩ := runRootfiles_extends j s b n rps acc'
    refine ⟨ex1 ++ ex2, ?_, ?_⟩
    · rw [hex2, hex1]
      simp
    · intro e he
      rcases List.mem_append.mp he with h | h
      · exact hall1 e h
      · exact hall2 e h

/-- Unfolding a successful pre-archive phase: both fetches succeeded, the
container parsed, and the rootfile paths were all read. -/
theorem preparePhase_ok (j : UrlJoin) (s : Session) (b : String)
    (m c : XmlInput) (rps : List String)
    (h : preparePhase j s b = .ok (m, c, rps)) :
    s (j b "mimetype") = .ok m ∧
    s (j b "META-INF/container.xml") = .ok c ∧
    ∃ craw cdoc, c = .wellFormed craw cdoc ∧
      rootfilePaths (cdoc.findall2 tagRootfiles tagRootfile) = .ok rps := by
  unfold preparePhase at h
  cases h1 : download_file s (j b "mimetype") with
  | error e => simp only [h1] at h; cases h
  | ok mb =>
    simp only [h1] at h
    cases h2 : download_file s (j b "META-INF/container.xml") with
    | error e => simp only [h2] at h; cases h
    | ok cb =>
      simp only [h2] at h
      cases h3 : parse_xml cb with
      | error e => simp only [h3] at h; cases h
      | ok cdoc =>
        simp only [h3] at h
        cases h4 : rootfilePaths (cdoc.findall2 tagRootfiles tagRootfile) with
        | error e => simp only [h4] at h; cases h
        | ok ps =>
          simp only [h4] at h
          obtain ⟨hm, hc, hps⟩ : mb = m ∧ cb = c ∧ ps = rps := by
            simpa using h
          rw [hm] at h1
          rw [hc] at h2 h3
          rw [hps] at h4
          obtain ⟨craw, hcr⟩ := (parse_xml_ok c cdoc).mp h3
          exact ⟨(download_file_ok s _ m).mp h1, (download_file_ok s _ c).mp h2,
            craw, cdoc, hcr, h4⟩

/-- When no optional file fails at the transport level, the optional loop
returns normally with exactly the `optSpec` entries appended. -/
theorem runOptional_ok_noTransport (j : UrlJoin) (s : Session) (b : String)
    (n : Nat) (l : List String) :
    ∀ acc : List ZipEntry, (∀ mf ∈ l, (s (j b mf)).isTransport = false) →
      runOptional j s b n acc l = .ok (acc ++ optSpec j s b n l) := by
  induction l with
  | nil => intro acc _; simp [runOptional, optSpec]
  | cons mf rest ih =>
    intro acc h
    have hmf := h mf (List.mem_cons_self mf rest)
    have hrest : ∀ x ∈ rest, (s (j b x)).isTransport = false :=
      fun x hx => h x (List.mem_cons_of_mem _ hx)
    cases hs : s (j b mf) with
    | ok body =>
      simp only [runOptional, hs, optSpec]
      rw [ih _ hrest]
      simp
    | httpError =>
      simp only [runOptional, hs, optSpec]
      exact ih _ hrest
    | transportError => rw [hs] at hmf; simp [FetchResult.isTransport] at hmf

/-- Every entry the optional loop contributes comes from a successful fetch of
the optional file it is named after. -/
theorem optSpec_mem (j : UrlJoin) (s : Session) (b : String) (n : Nat)
    (l : List String) (e : ZipEntry) (he : e ∈ optSpec j s b n l) :
    e.path ∈ l ∧ ∃ body, s (j b e.path) = .ok body ∧
      e = ZipEntry.mk e.path body.raw Compress.deflated n := by
  induction l with
  | nil => simp [optSpec] at he
  | cons mf rest ih =>
    cases hs : s (j b mf) with
    | ok body =>
      rw [optSpec, hs] at he
      rcases List.mem_cons.mp he with h | h
      · subst h
        exact ⟨List.mem_cons_self _ _, body, hs, rfl⟩
      · obtain ⟨h1, h2⟩ := ih h
        exact ⟨List.mem_cons_of_mem _ h1, h2⟩
    | httpError =>
      rw [optSpec, hs] at he
      obtain ⟨h1, h2⟩ := ih he
      exact ⟨List.mem_cons_of_mem _ h1, h2⟩
    | transportError =>
      rw [optSpec, hs] at he
      obtain ⟨h1, h2⟩ := ih he
      exact ⟨List.mem_cons_of_mem _ h1, h2⟩

/-- A successfully fetched optional file contributes its entry. -/
theorem optSpec_mem_of_ok (j : UrlJoin) (s : Session) (b : String) (n : Nat)
    (l : List String) (mf : String) (body : XmlInput)
    (hmf : mf ∈ l) (hs : s (j b mf) = .ok body) :
    ZipEntry.mk mf body.raw Compress.deflated n ∈ optSpec j s b n l := by
  induction l with
  | nil => cases hmf
  | cons x rest ih =>
    rcases List.mem_cons.mp hmf with h | h
    · subst h
      rw [optSpec, hs]
      exact List.mem_cons_self _ _
    · cases hx : s (j b x) with
      | ok b0 => rw [optSpec, hx]; exact List.mem_cons_of_mem _ (ih h)
      | httpError => rw [optSpec, hx]; exact ih h
      | transportError => rw [optSpec, hx]; exact ih h

/-- A transport failure on an optional file, the earlier optional files having
no transport failure, raises out of the loop with exactly the earlier
successful entries written. -/
theorem runOptional_transport (j : UrlJoin) (s : Session) (b : String)
    (n : Nat) (pre : List String) :
    ∀ acc mf post, (∀ x ∈ pre, (s (j b x)).isTransport = false) →
      s (j b mf) = .transportError →
      runOptional j s b n acc (pre ++ mf :: post) =
        .error (.transport (j b mf), acc ++ optSpec j s b n pre) := by
  induction pre with
  | nil =>
    intro acc mf post _ ht
    simp [runOptional, ht, optSpec]
  | cons x rest ih =>
    intro acc mf post h ht
    have hx := h x (List.mem_cons_self x rest)
    have hrest : ∀ y ∈ rest, (s (j b y)).isTransport = false :=
      fun y hy => h y (List.mem_cons_of_mem _ hy)
    cases hs : s (j b x) with
    | ok body =>
      simp only [List.cons_append, runOptional, hs, optSpec, List.append_eq]
      rw [ih _ mf post hrest ht]
      simp
    | httpError =>
      simp only [List.cons_append, runOptional, hs, optSpec, List.append_eq]
      rw [ih _ mf post hrest ht]
    | transportError => rw [hs] at hx; simp [FetchResult.isTransport] at hx

/-- A successful manifest-item loop appends exactly the `itemsSpec`
entries. -/
theorem runItems_ok (j : UrlJoin) (s : Session) (ru rp : String) (n : Nat)
    (items : List Element) :
    ∀ acc es, runItems j s ru rp n acc items = .ok es →
      ∃ l, itemsSpec j s ru rp n items = some l ∧ es = acc ++ l := by
  induction items with
  | nil =>
    intro acc es h
    simp only [runItems] at h
    injection h with h'
    exact ⟨[], by simp [itemsSpec], by simp [h']⟩
  | cons item rest ih =>
    intro acc es h
    cases hh : item.attrib.lookup "href" with
    | none => rw [runItems, hh] at h; cases h
    | some href =>
      cases hs : s (j ru href) with
      | ok body =>
        rw [runItems, hh] at h
        simp only [download_file, hs] at h
        obtain ⟨l, hl, hes⟩ := ih _ _ h
        refine ⟨ZipEntry.mk (j rp href) body.raw Compress.deflated n :: l, ?_, ?_⟩
        · simp [itemsSpec, itemFetch, hh, hs, hl]
        · simp [hes]
      | httpError =>
        rw [runItems, hh] at h
        simp only [download_file, hs] at h
        cases h
      | transportError =>
        rw [runItems, hh] at h
        simp only [download_file, hs] at h
        cases h

/-- `itemsSpec` produces one entry per manifest item. -/
theorem itemsSpec_length (j : UrlJoin) (s : Session) (ru rp : String) (n : Nat)
    (items : List Element) :
    ∀ l, itemsSpec j s ru rp n items = some l → l.length = items.length := by
  induction items with
  | nil => intro l h; simp [itemsSpec] at h; simp [← h]
  | cons item rest ih =>
    intro l h
    cases hf : itemFetch j s ru rp n item with
    | none => rw [itemsSpec, hf] at h; cases h
    | some e =>
      rw [itemsSpec, hf] at h
      cases hr : itemsSpec j s ru rp n rest with
      | none => rw [hr] at h; cases h
      | some l' =>
        rw [hr] at h
        injection h with h'
        simp [← h', ih l' hr]

/-- Unfolding a successful `itemFetch`: the item has an `href` and its fetch
succeeded. -/
theorem itemFetch_some (j : UrlJoin) (s : Session) (ru rp : String) (n : Nat)
    (item : Element) (e : ZipEntry) (h : itemFetch j s ru rp n item = some e) :
    ∃ href body, item.attrib.lookup "href" = some href ∧
      s (j ru href) = .ok body ∧
      e = ZipEntry.mk (j rp href) body.raw Compress.deflated n := by
  unfold itemFetch at h
  cases hh : item.attrib.lookup "href" with
  | none => simp only [hh] at h; cases h
  | some href =>
    simp only [hh] at h
    cases hs : s (j ru href) with
    | ok body =>
      simp only [hs] at h
      injection h with h'
      exact ⟨href, body, rfl, hs, h'.symm⟩
    | httpError => simp only [hs] at h; cases h
    | transportError => simp only [hs] at h; cases h

/-- Each manifest item of a successful `itemsSpec` run has an `href`, a
successful fetch at `urljoin(rootfile_url, href)`, and its entry named
`urljoin(rootfile_path, href)` in the produced list. -/
theorem itemsSpec_mem (j : UrlJoin) (s : Session) (ru rp : String) (n : Nat)
    (items : List Element) :
    ∀ l item, itemsSpec j s ru rp n items = some l → item ∈ items →
      ∃ href body, item.attrib.lookup "href" = some href ∧
        s (j ru href) = .ok body ∧
        ZipEntry.mk (j rp href) body.raw Compress.deflated n ∈ l := by
  induction items with
  | nil => intro l item _ hm; cases hm
  | cons it rest ih =>
    intro l item h hm
    cases hf : itemFetch j s ru rp n it with
    | none => rw [itemsSpec, hf] at h; cases h
    | some e =>
      rw [itemsSpec, hf] at h
      cases hr : itemsSpec j s ru rp n rest with
      | none => rw [hr] at h; cases h
      | some l' =>
        rw [hr] at h
        injection h with h'
        rcases List.mem_cons.mp hm with heq | hmem
        · subst heq
          obtain ⟨href, body, h1, h2, h3⟩ := itemFetch_some j s ru rp n item e hf
          refine ⟨href, body, h1, h2, ?_⟩
          rw [← h', h3]
          exact List.mem_cons_self _ _
        · obtain ⟨href, body, h1, h2, h3⟩ := ih l' item hr hmem
          exact ⟨href, body, h1, h2, by rw [← h']; exact List.mem_cons_of_mem _ h3⟩

/-- A successful rootfile loop fully processes every rootfile: for each
rootfile that parsed to `rdoc`, the manifest-item entries form a contiguous
segment of the final entry list, characterised by `itemsSpec`. -/
theorem runRootfiles_ok (j : UrlJoin) (s : Session) (b : String) (n : Nat)
    (rps : List String) :
    ∀ acc es rp rraw rdoc, runRootfiles j s b n acc rps = .ok es → rp ∈ rps →
      s (j b rp) = .ok (.wellFormed rraw rdoc) →
      ∃ l A B, itemsSpec j s (j b rp) rp n (rdoc.findall2 tagManifest tagItem) = some l ∧
        es = A ++ (l ++ B) := by
  induction rps with
  | nil => intro acc es rp rraw rdoc _ hm; cases hm
  | cons r0 rest ih =>
    intro acc es rp rraw rdoc h hm hsrp
    cases h0 : s (j b r0) with
    | ok body0 =>
      cases body0 with
      | malformed raw0 =>
        rw [runRootfiles] at h
        simp only [download_file, h0, parse_xml] at h
        cases h
      | entities raw0 =>
        rw [runRootfiles] at h
        simp only [download_file, h0, parse_xml] at h
        cases h
      | wellFormed raw0 doc0 =>
        rw [runRootfiles] at h
        simp only [download_file, h0, parse_xml, XmlInput.raw] at h
        cases hri : runItems j s (j b r0) r0 n
            (acc ++ [ZipEntry.mk r0 raw0 Compress.deflated n])
            (doc0.findall2 tagManifest tagItem) with
        | error p => simp only [hri] at h; cases h
        | ok acc' =>
          simp only [hri] at h
          rcases List.mem_cons.mp hm with heq | hmem
          · subst heq
            rw [h0] at hsrp
            have hd : raw0 = rraw ∧ doc0 = rdoc := by simpa using hsrp
            obtain ⟨hraw, hdoc⟩ := hd
            subst hraw; subst hdoc
            obtain ⟨l, hl, hacc'⟩ := runItems_ok j s (j b rp) rp n _ _ _ hri
            obtain ⟨ex, hex, _⟩ := runRootfiles_extends j s b n rest acc'
            rw [h] at hex
            simp only [resultEntries] at hex
            refine ⟨l, acc ++ [ZipEntry.mk rp raw0 Compress.deflated n], ex, hl, ?_⟩
            rw [hex, hacc']
            simp
          · exact ih acc' es rp rraw rdoc h hmem hsrp
    | httpError =>
      rw [runRootfiles] at h
      simp only [download_file, h0] at h
      cases h
    | transportError =>
      rw [runRootfiles] at h
      simp only [download_file, h0] at h
      cases h

/-! ## Clock-independence lemmas -/

/-- The optional loop's outcome, with timestamps erased, does not depend on
the clock. -/
theorem runOptional_content (j : UrlJoin) (s : Session) (b : String)
    (l : List String) :
    ∀ (acc1 acc2 : List ZipEntry) (n1 n2 : Nat),
      acc1.map ZipEntry.content = acc2.map ZipEntry.content →
      phaseContent (runOptional j s b n1 acc1 l) =
        phaseContent (runOptional j s b n2 acc2 l) := by
  induction l with
  | nil => intro acc1 acc2 n1 n2 h; simp [runOptional, phaseContent, h]
  | cons mf rest ih =>
    intro acc1 acc2 n1 n2 h
    cases hs : s (j b mf) with
    | ok body =>
      simp only [runOptional, hs]
      exact ih _ _ _ _ (by simp [h, ZipEntry.content])
    | httpError =>
      simp only [runOptional, hs]
      exact ih _ _ _ _ h
    | transportError => simp [runOptional, hs, phaseContent, h]

/-- The manifest-item loop's outcome, with timestamps erased, does not depend
on the clock. -/
theorem runItems_content (j : UrlJoin) (s : Session) (ru rp : String)
    (items : List Element) :
    ∀ (acc1 acc2 : List ZipEntry) (n1 n2 : Nat),
      acc1.map ZipEntry.content = acc2.map ZipEntry.content →
      phaseContent (runItems j s ru rp n1 acc1 items) =
        phaseContent (runItems j s ru rp n2 acc2 items) := by
  induction items with
  | nil => intro acc1 acc2 n1 n2 h; simp [runItems, phaseContent, h]
  | cons item rest ih =>
    intro acc1 acc2 n1 n2 h
    cases hh : item.attrib.lookup "href" with
    | none => simp [runItems, hh, phaseContent, h]
    | some href =>
      cases hs : s (j ru href) with
      | ok body =>
        simp only [runItems, hh, download_file, hs]
        exact ih _ _ _ _ (by simp [h, ZipEntry.content])
      | httpError => simp [runItems, hh, download_file, hs, phaseContent, h]
      | transportError => simp [runItems, hh, download_file, hs, phaseContent, h]

/-- The rootfile loop's outcome, with timestamps erased, does not depend on
the clock. -/
theorem runRootfiles_content (j : UrlJoin) (s : Session) (b : String)
    (rps : List String) :
    ∀ (acc1 acc2 : List ZipEntry) (n1 n2 : Nat),
      acc1.map ZipEntry.content = acc2.map ZipEntry.content →
      phaseContent (runRootfiles j s b n1 acc1 rps) =
        phaseContent (runRootfiles j s b n2 acc2 rps) := by
  induction rps with
  | nil => intro acc1 acc2 n1 n2 h; simp [runRootfiles, phaseContent, h]
  | cons r0 rest ih =>
    intro acc1 acc2 n1 n2 h
    cases h0 : s (j b r0) with
    | ok body0 =>
      cases body0 with
      | malformed raw0 => simp [runRootfiles, download_file, h0, parse_xml, phaseContent, h]
      | entities raw0 => simp [runRootfiles, download_file, h0, parse_xml, phaseContent, h]
      | wellFormed raw0 doc0 =>
        simp only [runRootfiles, download_file, h0, parse_xml, XmlInput.raw]
        have hitems := runItems_content j s (j b r0) r0
          (doc0.findall2 tagManifest tagItem)
          (acc1 ++ [ZipEntry.mk r0 raw0 Compress.deflated n1])
          (acc2 ++ [ZipEntry.mk r0 raw0 Compress.deflated n2])
          n1 n2 (by simp [h, ZipEntry.content])
        cases hri1 : runItems j s (j b r0) r0 n1
            (acc1 ++ [ZipEntry.mk r0 raw0 Compress.deflated n1])
            (doc0.findall2 tagManifest tagItem) with
        | error p1 =>
          cases hri2 : runItems j s (j b r0) r0 n2
              (acc2 ++ [ZipEntry.mk r0 raw0 Compress.deflated n2])
              (doc0.findall2 tagManifest tagItem) with
          | error p2 =>
            obtain ⟨e1, es1⟩ := p1
            obtain ⟨e2, es2⟩ := p2
            rw [hri1, hri2] at hitems
            simp only [phaseContent] at hitems
            simpa [phaseContent] using hitems
          | ok a2 =>
            rw [hri1, hri2] at hitems
            obtain ⟨e1, es1⟩ := p1
            simp [phaseContent] at hitems
        | ok a1 =>
          cases hri2 : runItems j s (j b r0) r0 n2
              (acc2 ++ [ZipEntry.mk r0 raw0 Compress.deflated n2])
              (doc0.findall2 tagManifest tagItem) with
          | error p2 =>
            rw [hri1, hri2] at hitems
            obtain ⟨e2, es2⟩ := p2
            simp [phaseContent] at hitems
          | ok a2 =>
            rw [hri1, hri2] at hitems
            simp only [phaseContent] at hitems
            exact ih a1 a2 n1 n2 (by simpa using hitems)
    | httpError => simp [runRootfiles, download_file, h0, phaseContent, h]
    | transportError => simp [runRootfiles, download_file, h0, phaseContent, h]

/-- The whole `with` block's outcome, with timestamps erased, does not depend
on the clock. -/
theorem zipPhase_content (j : UrlJoin) (s : Session) (b : String)
    (rps : List String) (acc1 acc2 : List ZipEntry) (n1 n2 : Nat)
    (h : acc1.map ZipEntry.content = acc2.map ZipEntry.content) :
    phaseContent (zipPhase j s b n1 acc1 rps) =
      phaseContent (zipPhase j s b n2 acc2 rps) := by
  unfold zipPhase
  have hopt := runOptional_content j s b optional_meta_files acc1 acc2 n1 n2 h
  cases ho1 : runOptional j s b n1 acc1 optional_meta_files with
  | error p1 =>
    cases ho2 : runOptional j s b n2 acc2 optional_meta_files with
    | error p2 =>
      obtain ⟨e1, es1⟩ := p1
      obtain ⟨e2, es2⟩ := p2
      rw [ho1, ho2] at hopt
      simpa [phaseContent] using hopt
    | ok a2 =>
      rw [ho1, ho2] at hopt
      obtain ⟨e1, es1⟩ := p1
      simp [phaseContent] at hopt
  | ok a1 =>
    cases ho2 : runOptional j s b n2 acc2 optional_meta_files with
    | error p2 =>
      rw [ho1, ho2] at hopt
      obtain ⟨e2, es2⟩ := p2
      simp [phaseContent] at hopt
    | ok a2 =>
      rw [ho1, ho2] at hopt
      simp only [phaseContent] at hopt
      exact runRootfiles_content j s b rps a1 a2 n1 n2 (by simpa using hopt)

/-! ## CLI splitting lemmas -/

/-- Splitting fails exactly on strings without the separator. -/
theorem breakOnFirst_of_not_mem (sep : Char) (v : List Char) (h : sep ∉ v) :
    breakOnFirst sep v = none := by
  induction v with
  | nil => rfl
  | cons c rest ih =>
    have hc : ¬ c = sep := fun hh => h (hh ▸ List.mem_cons_self c rest)
    have hr := ih (fun hm => h (List.mem_cons_of_mem _ hm))
    simp [breakOnFirst, hc, hr]

/-- Splitting a string whose first separator occurrence follows `a` yields
`(a, b)`. -/
theorem breakOnFirst_append (sep : Char) (a b : List Char) (h : sep ∉ a) :
    breakOnFirst sep (a ++ sep :: b) = some (a, b) := by
  induction a with
  | nil => simp [breakOnFirst]
  | cons c rest ih =>
    have hc : ¬ c = sep := fun hh => h (hh ▸ List.mem_cons_self c rest)
    have hr := ih (fun hm => h (List.mem_cons_of_mem _ hm))
    simp [breakOnFirst, hc, hr]

/-- Any repeated-value list containing a `:`-free element makes the header
loop fail. -/
theorem parseHeadersFrom_error (v : List Char) (hv : ':' ∉ v) (pre post : List (List Char)) :
    ∀ acc, parseHeadersFrom acc (pre ++ v :: post) = .error headersErrorMessage := by
  induction pre with
  | nil =>
    intro acc
    simp [parseHeadersFrom, breakOnFirst_of_not_mem ':' v hv]
  | cons h0 rest ih =>
    intro acc
    cases hb : breakOnFirst ':' h0 with
    | none => simp [parseHeadersFrom, hb]
    | some p =>
      obtain ⟨k, w⟩ := p
      simp only [List.cons_append, parseHeadersFrom, hb]
      exact ih _

/-- Any repeated-value list containing a `=`-free element makes the cookie
loop fail. -/
theorem parseCookiesFrom_error (v : List Char) (hv : '=' ∉ v) (pre post : List (List Char)) :
    ∀ acc, parseCookiesFrom acc (pre ++ v :: post) = .error cookiesErrorMessage := by
  induction pre with
  | nil =>
    intro acc
    simp [parseCookiesFrom, breakOnFirst_of_not_mem '=' v hv]
  | cons h0 rest ih =>
    intro acc
    cases hb : breakOnFirst '=' h0 with
    | none => simp [parseCookiesFrom, hb]
    | some p =>
      obtain ⟨k, w⟩ := p
      simp only [List.cons_append, parseCookiesFrom, hb]
      exact ih _

/-- Any repeated-value list containing a `=`-free element makes the
query-parameter loop fail. -/
theorem parseParamsFrom_error (v : List Char) (hv : '=' ∉ v) (pre post : List (List Char)) :
    ∀ acc, parseParamsFrom acc (pre ++ v :: post) = .error paramsErrorMessage := by
  induction pre with
  | nil =>
    intro acc
    simp [parseParamsFrom, breakOnFirst_of_not_mem '=' v hv]
  | cons h0 rest ih =>
    intro acc
    cases hb : breakOnFirst '=' h0 with
    | none => simp [parseParamsFrom, hb]
    | some p =>
      obtain ⟨k, w⟩ := p
      simp only [List.cons_append, parseParamsFrom, hb]
      exact ih _

/-! ## Claims -/

/-- Claim C1: for every run of `download_epub` against a server providing the
required resources (formally: every run that produces an archive at the
output path), the archive's first entry is named exactly `mimetype`, is
stored uncompressed (`ZIP_STORED`), and its bytes equal exactly the bytes
served at `base_url` joined with `"mimetype"`; every other entry of the
archive is written with deflate compression. -/
theorem c1_first_entry_mimetype_stored (j : UrlJoin) (s : Session)
    (b fn f : String) (now : Nat) (es : List ZipEntry)
    (h : (download_epub j s b fn now).file = some (f, es)) :
    ∃ body rest, s (j b "mimetype") = .ok body ∧
      es = ZipEntry.mk "mimetype" body.raw Compress.stored now :: rest ∧
      ∀ e ∈ rest, e.compress = Compress.deflated := by
  unfold download_epub at h
  cases hp : preparePhase j s b with
  | error e => simp only [hp] at h; cases h
  | ok t =>
    obtain ⟨m, c, rps⟩ := t
    simp only [hp] at h
    obtain ⟨hm, hc, craw, cdoc, hcw, hps⟩ := preparePhase_ok j s b m c rps hp
    obtain ⟨ex, hex, hall⟩ := zipPhase_extends j s b now
      [ZipEntry.mk "mimetype" m.raw Compress.stored now,
       ZipEntry.mk "META-INF/container.xml" c.raw Compress.deflated now] rps
    cases hz : zipPhase j s b now
        [ZipEntry.mk "mimetype" m.raw Compress.stored now,
         ZipEntry.mk "META-INF/container.xml" c.raw Compress.deflated now] rps with
    | error p =>
      obtain ⟨e0, pes⟩ := p
      rw [hz] at hex
      simp only [resultEntries] at hex
      simp only [hz] at h
      obtain ⟨hfn, hpes⟩ : fn = f ∧ pes = es := by simpa using h
      refine ⟨m, ZipEntry.mk "META-INF/container.xml" c.raw Compress.deflated now :: ex,
        hm, ?_, ?_⟩
      · rw [← hpes, hex]; simp
      · intro e he
        rcases List.mem_cons.mp he with h1 | h1
        · subst h1; rfl
        · exact hall e h1
    | ok oes =>
      rw [hz] at hex
      simp only [resultEntries] at hex
      simp only [hz] at h
      obtain ⟨hfn, hoes⟩ : fn = f ∧ oes = es := by simpa using h
      refine ⟨m, ZipEntry.mk "META-INF/container.xml" c.raw Compress.deflated now :: ex,
        hm, ?_, ?_⟩
      · rw [← hoes, hex]; simp
      · intro e he
        rcases List.mem_cons.mp he with h1 | h1
        · subst h1; rfl
        · exact hall e h1

/-- Witness for C1: the concrete example run. -/
theorem c1_witness :
    ∃ body rest, sessFull (cJoin cBase "mimetype") = .ok body ∧
      esFull = ZipEntry.mk "mimetype" body.raw Compress.stored 0 :: rest ∧
      ∀ e ∈ rest, e.compress = Compress.deflated :=
  c1_first_entry_mimetype_stored cJoin sessFull cBase "out.epub" "out.epub" 0 esFull rfl

/-- Claim C2: for every item element of every rootfile's manifest, processed
in manifest document order, a successful run of `download_epub` writes
exactly one archive entry per item (the entry list contains a contiguous
`itemsSpec` segment with one entry per item, in document order), the entry's
path being the item's `href` resolved against the rootfile's `full-path` and
its bytes being the bytes served at the `href` resolved against the
rootfile's URL — the two resolutions use different bases and are not
conflated. -/
theorem c2_manifest_items (j : UrlJoin) (s : Session) (b fn : String)
    (now : Nat) (es : List ZipEntry) (craw : String) (cdoc : Element)
    (rps : List String) (rp rraw : String) (rdoc : Element)
    (hrun : download_epub j s b fn now = ⟨none, some (fn, es)⟩)
    (hc : s (j b "META-INF/container.xml") = .ok (.wellFormed craw cdoc))
    (hps : rootfilePaths (cdoc.findall2 tagRootfiles tagRootfile) = .ok rps)
    (hrp : rp ∈ rps)
    (hr : s (j b rp) = .ok (.wellFormed rraw rdoc)) :
    ∃ l, itemsSpec j s (j b rp) rp now (rdoc.findall2 tagManifest tagItem) = some l ∧
      l.length = (rdoc.findall2 tagManifest tagItem).length ∧
      l.Sublist es ∧
      ∀ item ∈ rdoc.findall2 tagManifest tagItem,
        ∃ href body, item.attrib.lookup "href" = some href ∧
          s (j (j b rp) href) = .ok body ∧
          ZipEntry.mk (j rp href) body.raw Compress.deflated now ∈ es := by
  unfold download_epub at hrun
  cases hp : preparePhase j s b with
  | error e => simp [hp] at hrun
  | ok t =>
    obtain ⟨m, c, rps'⟩ := t
    simp only [hp] at hrun
    obtain ⟨hm', hc', craw', cdoc', hcw', hps'⟩ := preparePhase_ok j s b m c rps' hp
    have hcc : c = .wellFormed craw cdoc := by
      have := hc'.symm.trans hc
      simpa using this
    have hdocs : cdoc' = cdoc := by
      rw [hcc] at hcw'
      have h2 := hcw'
      simp at h2
      exact h2.2.symm
    have hrps : rps' = rps := by
      rw [hdocs] at hps'
      have := hps'.symm.trans hps
      simpa using this
    rw [hrps] at hp
    cases hz : zipPhase j s b now
        [ZipEntry.mk "mimetype" m.raw Compress.stored now,
         ZipEntry.mk "META-INF/container.xml" c.raw Compress.deflated now] rps with
    | error p =>
      obtain ⟨e0, pes⟩ := p
      rw [hrps] at hrun
      simp [hz] at hrun
    | ok oes =>
      rw [hrps] at hrun
      simp only [hz] at hrun
      have hoes : oes = es := by simpa using hrun
      subst hoes
      unfold zipPhase at hz
      cases ho : runOptional j s b now
          [ZipEntry.mk "mimetype" m.raw Compress.stored now,
           ZipEntry.mk "META-INF/container.xml" c.raw Compress.deflated now]
          optional_meta_files with
      | error p => simp only [ho] at hz; cases hz
      | ok acc1 =>
        simp only [ho] at hz
        obtain ⟨l, A, B, hl, hAB⟩ :=
          runRootfiles_ok j s b now rps acc1 oes rp rraw rdoc hz hrp hr
        refine ⟨l, hl, itemsSpec_length j s (j b rp) rp now _ l hl, ?_, ?_⟩
        · rw [hAB]
          exact ((List.sublist_append_left l B).trans
            (List.sublist_append_right A (l ++ B)))
        · intro item him
          obtain ⟨href, body, h1, h2, h3⟩ :=
            itemsSpec_mem j s (j b rp) rp now _ l item hl him
          refine ⟨href, body, h1, h2, ?_⟩
          rw [hAB]
          simp only [List.mem_append]
          exact Or.inr (Or.inl h3)

/-- Witness for C2: the concrete example run, whose rootfile sits in the
`OEBPS` subdirectory, so the archive path `OEBPS/ch1.html` and the fetch URL
`http://x/book/OEBPS/ch1.html` come from different joins. -/
theorem c2_witness :
    ∃ l, itemsSpec cJoin sessFull (cJoin cBase "OEBPS/content.opf")
        "OEBPS/content.opf" 0 (cOpfDoc.findall2 tagManifest tagItem) = some l ∧
      l.length = (cOpfDoc.findall2 tagManifest tagItem).length ∧
      l.Sublist esFull ∧
      ∀ item ∈ cOpfDoc.findall2 tagManifest tagItem,
        ∃ href body, item.attrib.lookup "href" = some href ∧
          sessFull (cJoin (cJoin cBase "OEBPS/content.opf") href) = .ok body ∧
          ZipEntry.mk (cJoin "OEBPS/content.opf" href) body.raw
            Compress.deflated 0 ∈ esFull :=
  c2_manifest_items cJoin sessFull cBase "out.epub" 0 esFull "containerxml"
    cContainerDoc ["OEBPS/content.opf"] "OEBPS/content.opf" "opfxml" cOpfDoc
    rfl rfl rfl (List.mem_cons_self _ _) rfl

/-- Counterexample to Claim C3 as stated: after `mimetype` and the container
succeed, the rootfile `OEBPS/content.opf` answers 404; the run aborts with
`HTTPError`, yet a partial archive holding the two entries already written
remains at the output path, because `zipfile.ZipFile` was opened directly on
it and the `with` block closes the partial file in place. -/
theorem c3_counterexample :
    (download_epub cJoin sessRootErr cBase "out.epub" 0).error =
      some (DlError.httpStatus "http://x/book/OEBPS/content.opf") ∧
    (download_epub cJoin sessRootErr cBase "out.epub" 0).file =
      some ("out.epub",
        [ZipEntry.mk "mimetype" "application/epub+zip" Compress.stored 0,
         ZipEntry.mk "META-INF/container.xml" "containerxml" Compress.deflated 0]) :=
  ⟨rfl, rfl⟩

/-- Claim C3 as amended: every failure aborts the run, but only failures in
the phase before `zipfile.ZipFile` is opened (the `mimetype` or container
fetch, the container parse, or a rootfile missing `full-path`) leave no
output file; a failure after the archive is opened leaves a partial archive
at the output path holding the entries written so far. -/
theorem c3_partial_file (j : UrlJoin) (s : Session) (b fn : String) (now : Nat) :
    (preOpenOk j s b = false →
      (download_epub j s b fn now).file = none ∧
      ∃ e, (download_epub j s b fn now).error = some e) ∧
    (preOpenOk j s b = true →
      ∃ es, (download_epub j s b fn now).file = some (fn, es)) := by
  unfold download_epub preOpenOk
  cases hp : preparePhase j s b with
  | error e => simp [hp]
  | ok t =>
    obtain ⟨m, c, rps⟩ := t
    cases hz : zipPhase j s b now
        [ZipEntry.mk "mimetype" m.raw Compress.stored now,
         ZipEntry.mk "META-INF/container.xml" c.raw Compress.deflated now] rps with
    | error p =>
      obtain ⟨e0, pes⟩ := p
      simp [hp, hz]
    | ok oes => simp [hp, hz]

/-- Witness for the amended C3: a fully failing server creates no file, and
the example server creates one. -/
theorem c3_witness :
    ((download_epub cJoin sessDown cBase "out.epub" 0).file = none ∧
      ∃ e, (download_epub cJoin sessDown cBase "out.epub" 0).error = some e) ∧
    ∃ es, (download_epub cJoin sessFull cBase "out.epub" 0).file =
      some ("out.epub", es) :=
  ⟨(c3_partial_file cJoin sessDown cBase "out.epub" 0).1 rfl,
   (c3_partial_file cJoin sessFull cBase "out.epub" 0).2 rfl⟩

/-- Counterexample to Claim C4 as stated: the served OPF's `dc:title` is
`Demo`, yet the archive is created at the caller-supplied path `out.epub`,
not `Demo.epub`; and a run whose OPF has no `dc:title` at all succeeds with
no error — the program never reads `dc:title` and has no
`MissingTitleError`. -/
theorem c4_counterexample :
    (cOpfDoc.findall2 tagMetadata tagTitle).map Element.text = [some "Demo"] ∧
    sessFull (cJoin cBase "OEBPS/content.opf") =
      .ok (.wellFormed "opfxml" cOpfDoc) ∧
    download_epub cJoin sessFull cBase "out.epub" 0 =
      ⟨none, some ("out.epub", esFull)⟩ ∧
    "out.epub" ≠ "Demo.epub" ∧
    (cOpfNoTitleDoc.findall2 tagMetadata tagTitle = [] ∧
      download_epub cJoin sessNoTitle cBase "out.epub" 0 =
        ⟨none, some ("out.epub", esFull)⟩) :=
  ⟨rfl, rfl, rfl, by decide, rfl, rfl⟩

/-- Claim C4 as amended: the output file is always created at the
caller-supplied `epub_filename` (the CLI's `output_file` argument); the OPF's
`dc:title` is never consulted, and an OPF without `dc:title` downloads
without error. -/
theorem c4_filename_is_argument (j : UrlJoin) (s : Session) (b fn : String)
    (now : Nat) :
    (∀ f es, (download_epub j s b fn now).file = some (f, es) → f = fn) ∧
    (download_epub cJoin sessNoTitle cBase "out.epub" 0).error = none := by
  constructor
  · intro f es h
    unfold download_epub at h
    cases hp : preparePhase j s b with
    | error e => simp only [hp] at h; cases h
    | ok t =>
      obtain ⟨m, c, rps⟩ := t
      simp only [hp] at h
      cases hz : zipPhase j s b now
          [ZipEntry.mk "mimetype" m.raw Compress.stored now,
           ZipEntry.mk "META-INF/container.xml" c.raw Compress.deflated now] rps with
      | error p =>
        obtain ⟨e0, pes⟩ := p
        simp only [hz] at h
        exact ((by simpa using h : fn = f ∧ pes = es).1).symm
      | ok oes =>
        simp only [hz] at h
        exact ((by simpa using h : fn = f ∧ oes = es).1).symm
  · rfl

/-- Witness for the amended C4. -/
theorem c4_witness :
    "out.epub" = "out.epub" ∧
    (download_epub cJoin sessNoTitle cBase "out.epub" 0).error = none :=
  ⟨(c4_filename_is_argument cJoin sessFull cBase "out.epub" 0).1 "out.epub" esFull rfl,
   (c4_filename_is_argument cJoin sessFull cBase "out.epub" 0).2⟩

/-- Counterexample to Claim C5 as stated: a container with zero `rootfile`
elements does not abort the run — `download_epub` completes with no error and
writes an archive holding just `mimetype` and `META-INF/container.xml`. -/
theorem c5_counterexample :
    cEmptyContainerDoc.findall2 tagRootfiles tagRootfile = [] ∧
    download_epub cJoin sessNoRoot cBase "out.epub" 0 =
      ⟨none, some ("out.epub",
        [ZipEntry.mk "mimetype" "application/epub+zip" Compress.stored 0,
         ZipEntry.mk "META-INF/container.xml" "containerxml" Compress.deflated 0])⟩ :=
  ⟨rfl, rfl⟩

/-- Claim C5 as amended: when the fetched container holds zero `rootfile`
elements (and no optional-file fetch fails at the transport level), the run
completes successfully and produces an output file containing only
`mimetype`, the container descriptor, and any optional metadata files that
were served. -/
theorem c5_no_rootfiles_succeeds (j : UrlJoin) (s : Session) (b fn : String)
    (now : Nat) (m : XmlInput) (craw : String) (cdoc : Element)
    (hm : s (j b "mimetype") = .ok m)
    (hc : s (j b "META-INF/container.xml") = .ok (.wellFormed craw cdoc))
    (hzero : cdoc.findall2 tagRootfiles tagRootfile = [])
    (hnt : ∀ mf ∈ optional_meta_files, (s (j b mf)).isTransport = false) :
    download_epub j s b fn now =
      ⟨none, some (fn,
        ZipEntry.mk "mimetype" m.raw Compress.stored now ::
        ZipEntry.mk "META-INF/container.xml" craw Compress.deflated now ::
        optSpec j s b now optional_meta_files)⟩ := by
  have hprep : preparePhase j s b = .ok (m, .wellFormed craw cdoc, []) := by
    unfold preparePhase download_file
    rw [hm, hc]
    simp [parse_xml, hzero, rootfilePaths]
  unfold download_epub
  simp only [hprep]
  unfold zipPhase
  rw [runOptional_ok_noTransport j s b now optional_meta_files _ hnt]
  simp [runRootfiles, XmlInput.raw]

/-- Witness for the amended C5. -/
theorem c5_witness :
    download_epub cJoin sessNoRoot cBase "out.epub" 0 =
      ⟨none, some ("out.epub",
        ZipEntry.mk "mimetype" "application/epub+zip" Compress.stored 0 ::
        ZipEntry.mk "META-INF/container.xml" "containerxml" Compress.deflated 0 ::
        optSpec cJoin sessNoRoot cBase 0 optional_meta_files)⟩ :=
  c5_no_rootfiles_succeeds cJoin sessNoRoot cBase "out.epub" 0
    (.malformed "application/epub+zip") "containerxml" cEmptyContainerDoc
    rfl rfl rfl (by decide)

/-- Counterexample to Claim C6 as stated: the ZIP byte stream is not a
function of the served content alone — `writestr` stamps each entry's
`date_time` from the wall clock, so the same scenario run at clock values 0
and 2 yields different archive bytes. -/
theorem c6_counterexample :
    download_epub cJoin sessFull cBase "out.epub" 0 ≠
      download_epub cJoin sessFull cBase "out.epub" 2 := by
  decide

/-- Claim C6 as amended: two runs against identical server content produce
archives that are identical except for the clock-derived per-entry
`date_time` stamps — the entry names, bytes, compression modes, order, and
the error outcome are a deterministic function of the served content
alone. -/
theorem c6_deterministic_content (j : UrlJoin) (s : Session) (b fn : String)
    (n1 n2 : Nat) :
    (download_epub j s b fn n1).content = (download_epub j s b fn n2).content := by
  unfold download_epub
  cases hp : preparePhase j s b with
  | error e => simp [hp]
  | ok t =>
    obtain ⟨m, c, rps⟩ := t
    have h := zipPhase_content j s b rps
      [ZipEntry.mk "mimetype" m.raw Compress.stored n1,
       ZipEntry.mk "META-INF/container.xml" c.raw Compress.deflated n1]
      [ZipEntry.mk "mimetype" m.raw Compress.stored n2,
       ZipEntry.mk "META-INF/container.xml" c.raw Compress.deflated n2]
      n1 n2 (by simp [ZipEntry.content])
    cases hz1 : zipPhase j s b n1
        [ZipEntry.mk "mimetype" m.raw Compress.stored n1,
         ZipEntry.mk "META-INF/container.xml" c.raw Compress.deflated n1] rps with
    | error p1 =>
      cases hz2 : zipPhase j s b n2
          [ZipEntry.mk "mimetype" m.raw Compress.stored n2,
           ZipEntry.mk "META-INF/container.xml" c.raw Compress.deflated n2] rps with
      | error p2 =>
        obtain ⟨e1, es1⟩ := p1
        obtain ⟨e2, es2⟩ := p2
        rw [hz1, hz2] at h
        simp only [phaseContent] at h
        obtain ⟨he, hes⟩ : e1 = e2 ∧ es1.map ZipEntry.content = es2.map ZipEntry.content := by
          simpa using h
        simp [hp, hz1, hz2, RunResult.content, he, hes]
      | ok a2 =>
        rw [hz1, hz2] at h
        obtain ⟨e1, es1⟩ := p1
        simp [phaseContent] at h
    | ok a1 =>
      cases hz2 : zipPhase j s b n2
          [ZipEntry.mk "mimetype" m.raw Compress.stored n2,
           ZipEntry.mk "META-INF/container.xml" c.raw Compress.deflated n2] rps with
      | error p2 =>
        rw [hz1, hz2] at h
        obtain ⟨e2, es2⟩ := p2
        simp [phaseContent] at h
      | ok a2 =>
        rw [hz1, hz2] at h
        simp only [phaseContent] at h
        have hes : a1.map ZipEntry.content = a2.map ZipEntry.content := by simpa using h
        simp [hp, hz1, hz2, RunResult.content, hes]

/-- Claim C7: for each of the five optional metadata paths, a non-success
HTTP status is swallowed and the file is simply omitted from the optional
block of the archive, while a successful fetch writes the served bytes at
that path; the swallowing applies only to these optional files — a
non-success status on a required resource such as `mimetype` aborts the
run. -/
theorem c7_optional_meta (j : UrlJoin) (s : Session) (b fn : String) (now : Nat) :
    (preOpenOk j s b = true →
     (∀ mf ∈ optional_meta_files, (s (j b mf)).isTransport = false) →
     (∃ e1 e2 rest, (download_epub j s b fn now).file =
        some (fn, e1 :: e2 :: (optSpec j s b now optional_meta_files ++ rest))) ∧
     (∀ mf ∈ optional_meta_files,
       (s (j b mf) = .httpError →
         ∀ e ∈ optSpec j s b now optional_meta_files, e.path ≠ mf) ∧
       (∀ body, s (j b mf) = .ok body →
         ZipEntry.mk mf body.raw Compress.deflated now ∈
           optSpec j s b now optional_meta_files))) ∧
    (s (j b "mimetype") = .httpError →
      download_epub j s b fn now = ⟨some (.httpStatus (j b "mimetype")), none⟩) := by
  constructor
  · intro hopen hnt
    constructor
    · unfold preOpenOk at hopen
      cases hp : preparePhase j s b with
      | error e => simp only [hp] at hopen; cases hopen
      | ok t =>
        obtain ⟨m, c, rps⟩ := t
        unfold download_epub
        simp only [hp]
        unfold zipPhase
        rw [runOptional_ok_noTransport j s b now optional_meta_files _ hnt]
        cases hr : runRootfiles j s b now
            ([ZipEntry.mk "mimetype" m.raw Compress.stored now,
              ZipEntry.mk "META-INF/container.xml" c.raw Compress.deflated now] ++
              optSpec j s b now optional_meta_files) rps with
        | error p =>
          obtain ⟨e0, pes⟩ := p
          obtain ⟨ex, hex, _⟩ := runRootfiles_extends j s b now rps
            ([ZipEntry.mk "mimetype" m.raw Compress.stored now,
              ZipEntry.mk "META-INF/container.xml" c.raw Compress.deflated now] ++
              optSpec j s b now optional_meta_files)
          rw [hr] at hex
          simp only [resultEntries] at hex
          refine ⟨ZipEntry.mk "mimetype" m.raw Compress.stored now,
            ZipEntry.mk "META-INF/container.xml" c.raw Compress.deflated now, ex, ?_⟩
          simp only [hr]
          rw [hex]
          simp
        | ok oes =>
          obtain ⟨ex, hex, _⟩ := runRootfiles_extends j s b now rps
            ([ZipEntry.mk "mimetype" m.raw Compress.stored now,
              ZipEntry.mk "META-INF/container.xml" c.raw Compress.deflated now] ++
              optSpec j s b now optional_meta_files)
          rw [hr] at hex
          simp only [resultEntries] at hex
          refine ⟨ZipEntry.mk "mimetype" m.raw Compress.stored now,
            ZipEntry.mk "META-INF/container.xml" c.raw Compress.deflated now, ex, ?_⟩
          simp only [hr]
          rw [hex]
          simp
    · intro mf hmf
      constructor
      · intro he e hmem heq
        obtain ⟨_, body, hok, _⟩ := optSpec_mem j s b now optional_meta_files e hmem
        rw [heq, he] at hok
        cases hok
      · intro body hok
        exact optSpec_mem_of_ok j s b now optional_meta_files mf body hmf hok
  · intro hmime
    unfold download_epub preparePhase download_file
    rw [hmime]

/-- Witness for C7 at a server where `META-INF/encryption.xml` exists and the
other optional files answer 404. -/
theorem c7_witness :
    (∃ e1 e2 rest, (download_epub cJoin sessOpt cBase "out.epub" 0).file =
        some ("out.epub", e1 :: e2 ::
          (optSpec cJoin sessOpt cBase 0 optional_meta_files ++ rest))) ∧
    (∀ mf ∈ optional_meta_files,
      (sessOpt (cJoin cBase mf) = .httpError →
        ∀ e ∈ optSpec cJoin sessOpt cBase 0 optional_meta_files, e.path ≠ mf) ∧
      (∀ body, sessOpt (cJoin cBase mf) = .ok body →
        ZipEntry.mk mf body.raw Compress.deflated 0 ∈
          optSpec cJoin sessOpt cBase 0 optional_meta_files)) :=
  (c7_optional_meta cJoin sessOpt cBase "out.epub" 0).1 rfl (by decide)

/-- Claim C8: `parse_xml` parses through `defusedxml`, which rejects every
input that declares entities or resolves external references — both the
external-entity and the billion-laughs attack shapes — with an error instead
of resolving or expanding them. -/
theorem c8_entity_attacks_rejected (raw : String) :
    parse_xml (XmlInput.entities raw) = .error DlError.entitiesForbidden ∧
    ∀ doc, parse_xml (XmlInput.entities raw) ≠ .ok doc :=
  ⟨rfl, fun _ h => nomatch h⟩

/-- Witness for C8 on a concrete entity-declaring input. -/
theorem c8_witness :
    parse_xml (XmlInput.entities "attackdoc") = .error DlError.entitiesForbidden ∧
    ∀ doc, parse_xml (XmlInput.entities "attackdoc") ≠ .ok doc :=
  c8_entity_attacks_rejected "attackdoc"

/-- Claim C9: `--auth` splits on the first `:` into `(username, password)`;
`--header` splits on the first `:` and `--cookie` / `--param` on the first
`=`, both sides trimmed; a value lacking its separator is a
parameter-validation error, raised by the click callback before the command
body — and hence before any network request — runs. -/
theorem c9_cli_option_parsing :
    (∀ u p : List Char, ':' ∉ u →
      parse_auth (some (u ++ ':' :: p)) = .ok (some (u, p))) ∧
    (∀ v : List Char, ':' ∉ v → parse_auth (some v) = .error authErrorMessage) ∧
    (∀ k w : List Char, ':' ∉ k →
      parse_headers [k ++ ':' :: w] = .ok [(trimChars k, trimChars w)]) ∧
    (∀ (pre post : List (List Char)) (v : List Char), ':' ∉ v →
      parse_headers (pre ++ v :: post) = .error headersErrorMessage) ∧
    (∀ k w : List Char, '=' ∉ k →
      parse_cookies [k ++ '=' :: w] = .ok [(trimChars k, trimChars w)]) ∧
    (∀ (pre post : List (List Char)) (v : List Char), '=' ∉ v →
      parse_cookies (pre ++ v :: post) = .error cookiesErrorMessage) ∧
    (∀ k w : List Char, '=' ∉ k →
      parse_params [k ++ '=' :: w] = .ok [(trimChars k, trimChars w)]) ∧
    (∀ (pre post : List (List Char)) (v : List Char), '=' ∉ v →
      parse_params (pre ++ v :: post) = .error paramsErrorMessage) ∧
    (∀ (jn : UrlJoin) (s : Session) (b fn : String) (v : List Char)
        (cookie header param : List (List Char)) (now : Nat), ':' ∉ v →
      main jn s b fn (some v) cookie header param now = .error authErrorMessage) := by
  refine ⟨?_, ?_, ?_, ?_, ?_, ?_, ?_, ?_, ?_⟩
  · intro u p hu
    simp [parse_auth, breakOnFirst_append ':' u p hu]
  · intro v hv
    simp [parse_auth, breakOnFirst_of_not_mem ':' v hv]
  · intro k w hk
    simp [parse_headers, parseHeadersFrom, breakOnFirst_append ':' k w hk, dictInsert]
  · intro pre post v hv
    exact parseHeadersFrom_error v hv pre post []
  · intro k w hk
    simp [parse_cookies, parseCookiesFrom, breakOnFirst_append '=' k w hk, dictInsert]
  · intro pre post v hv
    exact parseCookiesFrom_error v hv pre post []
  · intro k w hk
    simp [parse_params, parseParamsFrom, breakOnFirst_append '=' k w hk, dictInsert]
  · intro pre post v hv
    exact parseParamsFrom_error v hv pre post []
  · intro jn s b fn v cookie header param now hv
    unfold main
    simp [parse_auth, breakOnFirst_of_not_mem ':' v hv]

/-- Witness for C9 on concrete option strings. -/
theorem c9_witness :
    parse_auth (some (['u'] ++ ':' :: ['p'])) = .ok (some (['u'], ['p'])) ∧
    parse_auth (some ['x']) = .error authErrorMessage ∧
    parse_headers [['k'] ++ ':' :: ['v']] = .ok [(trimChars ['k'], trimChars ['v'])] ∧
    parse_headers ([] ++ ['x'] :: []) = .error headersErrorMessage ∧
    parse_cookies [['k'] ++ '=' :: ['v']] = .ok [(trimChars ['k'], trimChars ['v'])] ∧
    parse_cookies ([] ++ ['x'] :: []) = .error cookiesErrorMessage ∧
    parse_params [['k'] ++ '=' :: ['v']] = .ok [(trimChars ['k'], trimChars ['v'])] ∧
    parse_params ([] ++ ['x'] :: []) = .error paramsErrorMessage ∧
    main cJoin sessFull cBase "out.epub" (some ['x']) [] [] [] 0 =
      .error authErrorMessage :=
  ⟨c9_cli_option_parsing.1 ['u'] ['p'] (by decide),
   c9_cli_option_parsing.2.1 ['x'] (by decide),
   c9_cli_option_parsing.2.2.1 ['k'] ['v'] (by decide),
   c9_cli_option_parsing.2.2.2.1 [] [] ['x'] (by decide),
   c9_cli_option_parsing.2.2.2.2.1 ['k'] ['v'] (by decide),
   c9_cli_option_parsing.2.2.2.2.2.1 [] [] ['x'] (by decide),
   c9_cli_option_parsing.2.2.2.2.2.2.1 ['k'] ['v'] (by decide),
   c9_cli_option_parsing.2.2.2.2.2.2.2.1 [] [] ['x'] (by decide),
   c9_cli_option_parsing.2.2.2.2.2.2.2.2 cJoin sessFull cBase "out.epub" ['x']
     [] [] [] 0 (by decide)⟩

/-- Claim C10: in the optional-metadata loop only HTTP status errors are
swallowed — a transport-level failure on one of the five optional files (no
earlier optional file having failed at the transport level) escapes the
`except requests.exceptions.HTTPError` handler and aborts the entire run. -/
theorem c10_transport_aborts (j : UrlJoin) (s : Session) (b fn : String)
    (now : Nat) (pre post : List String) (mf : String)
    (hsplit : optional_meta_files = pre ++ mf :: post)
    (hpre : ∀ x ∈ pre, (s (j b x)).isTransport = false)
    (ht : s (j b mf) = .transportError)
    (hopen : preOpenOk j s b = true) :
    ∃ es, download_epub j s b fn now =
      ⟨some (.transport (j b mf)), some (fn, es)⟩ := by
  unfold preOpenOk at hopen
  cases hp : preparePhase j s b with
  | error e => simp only [hp] at hopen; cases hopen
  | ok t =>
    obtain ⟨m, c, rps⟩ := t
    unfold download_epub
    simp only [hp]
    unfold zipPhase
    rw [hsplit, runOptional_transport j s b now pre _ mf post hpre ht]
    exact ⟨_, rfl⟩

/-- Witness for C10: `META-INF/manifest.xml` fails at the transport level and
the run aborts with that transport error. -/
theorem c10_witness :
    ∃ es, download_epub cJoin sessTransport cBase "out.epub" 0 =
      ⟨some (.transport (cJoin cBase "META-INF/manifest.xml")),
       some ("out.epub", es)⟩ :=
  c10_transport_aborts cJoin sessTransport cBase "out.epub" 0
    ["META-INF/encryption.xml"]
    ["META-INF/metadata.xml", "META-INF/rights.xml", "META-INF/signatures.xml"]
    "META-INF/manifest.xml" rfl (by decide) rfl rfl

end UnzippedEpub
